import Mathlib

/-!
Verification development for the Islami Bank statement parser (src/app.py).

The core of the repository is the function parse_bank_statement, a pure
text-to-structured-data extraction over one input string.  We embed it
shallowly: strings become lists of characters, the regular expressions of
the source are translated into specialized executable matchers that follow
Python's backtracking search order (greedy and lazy quantifiers, ordered
alternation, leftmost search), datetime.strptime is modelled by explicit
token parsers with Python's century rule and calendar validation, and the
float conversions of well-shaped two-decimal amount strings are modelled
exactly as rationals.  The regex class \d is read as the ASCII digits and
strftime year formatting is modelled zero-padded to four digits.
-/

set_option maxRecDepth 100000

namespace IBBL

/-- ASCII decimal digits, the reading of the regex class \d used throughout. -/
def isDig (c : Char) : Bool := 48 ≤ c.toNat && c.toNat ≤ 57

/-- Characters of the regex class [A-Z0-9]. -/
def isAZ9 (c : Char) : Bool := isDig c || (65 ≤ c.toNat && c.toNat ≤ 90)

/-- Python whitespace: the characters accepted by the regex class \s and by
str.strip() with no argument (ASCII whitespace plus the Unicode spaces). -/
def isWs (c : Char) : Bool :=
  let n := c.toNat
  (9 ≤ n && n ≤ 13) || (28 ≤ n && n ≤ 31) || n = 32 || n = 133 || n = 160 ||
  n = 5760 || (8192 ≤ n && n ≤ 8202) || n = 8232 || n = 8233 || n = 8239 ||
  n = 8287 || n = 12288

/-- Characters of the regex class [\d,] used by the totals pattern. -/
def isDigComma (c : Char) : Bool := isDig c || c = ','

/-- Numeric value of a digit character. -/
def digitVal (c : Char) : ℕ := c.toNat - 48

/-- Value of a digit string, most significant digit first. -/
def natOfDigits (l : List Char) : ℕ := l.foldl (fun a c => 10 * a + digitVal c) 0

/-- Length of the maximal prefix run of characters satisfying p. -/
def runLen (p : Char → Bool) : List Char → ℕ
  | [] => 0
  | c :: t => if p c then runLen p t + 1 else 0

/-- Python str.strip(): drop leading and trailing whitespace. -/
def pyStrip (l : List Char) : List Char :=
  ((l.dropWhile isWs).reverse.dropWhile isWs).reverse

/-- Python substring containment, the operator in of str. -/
def containsSub (pat : List Char) : List Char → Bool
  | [] => pat.isPrefixOf []
  | c :: t => pat.isPrefixOf (c :: t) || containsSub pat t

/-- Python str.split on a newline: text.split with separator a newline;
the empty string yields one empty line. -/
def splitNl : List Char → List (List Char)
  | [] => [[]]
  | c :: t =>
    if c = '\n' then [] :: splitNl t
    else
      match splitNl t with
      | [] => [[c]]
      | h :: r => (c :: h) :: r

/-- The statement_period sub-dictionary of account_info. -/
structure StatementPeriod where
  start_date : Option String
  end_date : Option String
deriving DecidableEq, Repr

/-- The account_info dictionary built by parse_bank_statement. -/
structure AccountInfo where
  bank : String
  account_holder : Option String
  account_number : Option String
  account_type : Option String
  statement_period : StatementPeriod
deriving DecidableEq, Repr

/-- One transaction record appended by the transaction loop. -/
structure Transaction where
  date : String
  post_date : String
  description : String
  reference : Option String
  withdrawal : ℚ
  deposit : ℚ
  balance : ℚ
deriving DecidableEq, Repr

/-- The totals dictionary. -/
structure Totals where
  total_withdrawal : Option ℚ
  total_deposit : Option ℚ
  final_balance : Option ℚ
deriving DecidableEq, Repr

/-- The dictionary returned by parse_bank_statement. -/
structure ParseResult where
  account_info : AccountInfo
  transactions : List Transaction
  totals : Totals
deriving DecidableEq, Repr

/-- The day field of strptime: regex alternation 3[01]|[12]\d|0[1-9]|[1-9],
so a two-digit value 01..31 or a single digit 1..9 (leading zero optional). -/
def dayTok : List Char → Option (ℕ × List Char)
  | [] => none
  | [c] => if isDig c && 1 ≤ digitVal c then some (digitVal c, []) else none
  | c1 :: c2 :: r =>
    if isDig c1 && isDig c2 then
      if 1 ≤ 10 * digitVal c1 + digitVal c2 && 10 * digitVal c1 + digitVal c2 ≤ 31 then
        some (10 * digitVal c1 + digitVal c2, r)
      else none
    else if isDig c1 && 1 ≤ digitVal c1 then some (digitVal c1, c2 :: r)
    else none

/-- The month field of strptime: 1[0-2]|0[1-9]|[1-9], value 1..12. -/
def monthTok : List Char → Option (ℕ × List Char)
  | [] => none
  | [c] => if isDig c && 1 ≤ digitVal c then some (digitVal c, []) else none
  | c1 :: c2 :: r =>
    if isDig c1 && isDig c2 then
      if 1 ≤ 10 * digitVal c1 + digitVal c2 && 10 * digitVal c1 + digitVal c2 ≤ 12 then
        some (10 * digitVal c1 + digitVal c2, r)
      else none
    else if isDig c1 && 1 ≤ digitVal c1 then some (digitVal c1, c2 :: r)
    else none

/-- The two-digit year field of the format with a lowercase y: exactly two
digits which must also end the string (strptime demands full consumption). -/
def year2Tok : List Char → Option ℕ
  | [a, b] => if isDig a && isDig b then some (10 * digitVal a + digitVal b) else none
  | _ => none

/-- The four-digit year field of the format with an uppercase Y: exactly four
digits ending the string. -/
def year4Tok : List Char → Option ℕ
  | [a, b, c, d] =>
    if isDig a && isDig b && isDig c && isDig d then some (natOfDigits [a, b, c, d])
    else none
  | _ => none

/-- Gregorian leap-year rule used by datetime. -/
def isLeap (y : ℕ) : Bool := y % 4 = 0 && (y % 100 ≠ 0 || y % 400 = 0)

/-- Days in a month, as validated by the datetime constructor. -/
def daysInMonth (y m : ℕ) : ℕ :=
  if m = 2 then (if isLeap y then 29 else 28)
  else if m = 4 || m = 6 || m = 9 || m = 11 then 30
  else 31

/-- The century rule of strptime: a two-digit year below 69 is resolved to
20xx, otherwise to 19xx. -/
def pivotY (yy : ℕ) : ℕ := if yy ≤ 68 then 2000 + yy else 1900 + yy

/-- datetime.strptime with format day slash month slash two-digit year.
Python resolves a two-digit year by the century rule, and the datetime
constructor rejects a day beyond the month length. -/
def strptime_dmy (l : List Char) : Option (ℕ × ℕ × ℕ) :=
  match dayTok l with
  | none => none
  | some (d, r) =>
    match r with
    | [] => none
    | c :: r1 =>
      if c = '/' then
        match monthTok r1 with
        | none => none
        | some (m, r2) =>
          match r2 with
          | [] => none
          | c2 :: r3 =>
            if c2 = '/' then
              match year2Tok r3 with
              | none => none
              | some yy =>
                if d ≤ daysInMonth (pivotY yy) m then some (pivotY yy, m, d)
                else none
            else none
      else none

/-- datetime.strptime with format day slash month slash four-digit year.
The datetime constructor requires a year of at least 1. -/
def strptime_dmY (l : List Char) : Option (ℕ × ℕ × ℕ) :=
  match dayTok l with
  | none => none
  | some (d, r) =>
    match r with
    | [] => none
    | c :: r1 =>
      if c = '/' then
        match monthTok r1 with
        | none => none
        | some (m, r2) =>
          match r2 with
          | [] => none
          | c2 :: r3 =>
            if c2 = '/' then
              match year4Tok r3 with
              | none => none
              | some y =>
                if 1 ≤ y && d ≤ daysInMonth y m then some (y, m, d) else none
            else none
      else none

/-- Two-digit zero-padded decimal rendering. -/
def pad2 (n : ℕ) : List Char := [Nat.digitChar (n / 10 % 10), Nat.digitChar (n % 10)]

/-- Four-digit zero-padded decimal rendering. -/
def pad4 (n : ℕ) : List Char :=
  [Nat.digitChar (n / 1000 % 10), Nat.digitChar (n / 100 % 10),
   Nat.digitChar (n / 10 % 10), Nat.digitChar (n % 10)]

/-- strftime with the year-month-day format used for canonical dates. -/
def isoChars (y m d : ℕ) : List Char := pad4 y ++ '-' :: (pad2 m ++ '-' :: pad2 d)

/-- convert_date_format of src/app.py: try the two-digit-year format, then the
four-digit-year format, and fall back to the unchanged input; no exception
escapes because every failure path returns the original token. -/
def convert_date_format (l : List Char) : List Char :=
  match strptime_dmy l with
  | some (y, m, d) => isoChars y m d
  | none =>
    match strptime_dmY l with
    | some (y, m, d) => isoChars y m d
    | none => l

/-- A point followed by exactly two digits starts the list. -/
def amtDot2 : List Char → Bool
  | c :: a :: b :: _ => c = '.' && isDig a && isDig b
  | _ => false

/-- A comma followed by exactly three digits starts the list. -/
def amtComma3 : List Char → Bool
  | c :: a :: b :: c3 :: _ => c = ',' && isDig a && isDig b && isDig c3
  | _ => false

/-- The tail of the comma-grouped amount regex: after the leading digit run,
zero or more comma groups of exactly three digits, then a point and exactly
two digits.  Returns the number of characters consumed.  Backtracking to
fewer comma groups can never help, because stopping earlier leaves a comma
where the point is required, so the greedy count is definitive.  The fuel
only bounds the number of comma groups; callers pass a length-derived bound
that each four-character group can never exhaust. -/
def amtGroups : ℕ → List Char → Option ℕ
  | 0, _ => none
  | f + 1, l =>
    if amtDot2 l then some 3
    else if amtComma3 l then (amtGroups f (l.drop 4)).map (· + 4)
    else none

/-- The comma-grouped amount regex: one to three leading digits, then comma
groups, point, two digits.  A leading run of four or more digits can never
match, since the character after the one-to-three digits taken must be a
comma or a point.  Returns the matched length. -/
def amt (l : List Char) : Option ℕ :=
  if runLen isDig l = 0 || 3 < runLen isDig l then none
  else (amtGroups l.length (l.drop (runLen isDig l))).map (· + runLen isDig l)

/-- The literal alternative of the optional amount groups, the four
characters zero point zero zero. -/
def lit000 : List Char → Bool
  | a :: b :: c :: d :: _ => a = '0' && b = '.' && c = '0' && d = '0'
  | _ => false

/-- The group alternation amount-or-literal-0.00, tried in pattern order. -/
def amtOrZero (l : List Char) : Option ℕ :=
  match amt l with
  | some u => some u
  | none => if lit000 l then some 4 else none

/-- The zero-width lookahead of transaction_pattern: an amount, the literal
0.00, or whitespace followed by an amount.  Inside the whitespace alternative
only the full whitespace run can precede the amount, because an amount starts
with a digit. -/
def lookAt (l : List Char) : Bool :=
  (amt l).isSome || lit000 l ||
    (decide (1 ≤ runLen isWs l) && (amt (l.drop (runLen isWs l))).isSome)

/-- Greedy one-or-more-whitespace then the mandatory balance amount, group 7.
The counter starts at the whitespace run length and counts down, longest
split first, matching the greedy backtracking order. -/
def sepBal : ℕ → List Char → Option (List Char)
  | 0, _ => none
  | i + 1, l =>
    match amt (l.drop (i + 1)) with
    | some u => some ((l.drop (i + 1)).take u)
    | none => sepBal i l

/-- Optional deposit group followed by whitespace and the balance: the
optional group is greedy, so the present alternative is tried first. -/
def depPart (l : List Char) : Option (Option (List Char) × List Char) :=
  (match amtOrZero l with
   | some u => (sepBal (runLen isWs (l.drop u)) (l.drop u)).map
       (fun b => (some (l.take u), b))
   | none => none).orElse
    (fun _ => (sepBal (runLen isWs l) l).map (fun b => (none, b)))

/-- Greedy one-or-more-whitespace then the deposit part. -/
def sepDep : ℕ → List Char → Option (Option (List Char) × List Char)
  | 0, _ => none
  | i + 1, l => (depPart (l.drop (i + 1))).orElse (fun _ => sepDep i l)

/-- Optional withdrawal group followed by whitespace, deposit part, balance. -/
def wdrPart (l : List Char) :
    Option (Option (List Char) × Option (List Char) × List Char) :=
  (match amtOrZero l with
   | some u => (sepDep (runLen isWs (l.drop u)) (l.drop u)).map
       (fun p => (some (l.take u), p))
   | none => none).orElse
    (fun _ => (sepDep (runLen isWs l) l).map (fun p => (none, p)))

/-- The greedy zero-or-more-whitespace after the optional reference group,
counting down from the whitespace run length to the empty match. -/
def starWdr : ℕ → List Char → Option (Option (List Char) × Option (List Char) × List Char)
  | 0, l => wdrPart l
  | i + 1, l => (wdrPart (l.drop (i + 1))).orElse (fun _ => starWdr i l)

/-- The optional reference group [A-Z0-9]+, greedy: candidate lengths from the
full run down to one, then the absent alternative. -/
def refLevel : ℕ → List Char →
    Option (Option (List Char) × Option (List Char) × Option (List Char) × List Char)
  | 0, l => (starWdr (runLen isWs l) l).map (fun p => (none, p))
  | j + 1, l =>
    match starWdr (runLen isWs (l.drop (j + 1))) (l.drop (j + 1)) with
    | some p => some (some (l.take (j + 1)), p)
    | none => refLevel j l

/-- The numeric tail of transaction_pattern from the lookahead position:
lookahead, optional reference, optional withdrawal and deposit, balance. -/
def tailFull (l : List Char) :
    Option (Option (List Char) × Option (List Char) × Option (List Char) × List Char) :=
  if lookAt l then refLevel (runLen isAZ9 l) l else none

/-- Greedy one-or-more-whitespace between the description and the numeric
tail, longest split first. -/
def sepTail : ℕ → List Char →
    Option (Option (List Char) × Option (List Char) × Option (List Char) × List Char)
  | 0, _ => none
  | i + 1, l => (tailFull (l.drop (i + 1))).orElse (fun _ => sepTail i l)

/-- The lazy description group: shortest candidate first, extending one
character at a time; for each candidate every whitespace split is tried. -/
def descScan : ℕ → List Char → List Char →
    Option (List Char ×
      (Option (List Char) × Option (List Char) × Option (List Char) × List Char))
  | 0, acc, rest => (sepTail (runLen isWs rest) rest).map (fun tr => (acc, tr))
  | f + 1, acc, rest =>
    ((sepTail (runLen isWs rest) rest).map (fun tr => (acc, tr))).orElse
      (fun _ =>
        match rest with
        | c :: t => descScan f (acc ++ [c]) t
        | [] => none)

/-- Greedy one-or-more-whitespace between the post date and the description,
longest split first; the description group can then absorb any leftover. -/
def sepDesc : ℕ → List Char →
    Option (List Char ×
      (Option (List Char) × Option (List Char) × Option (List Char) × List Char))
  | 0, _ => none
  | i + 1, l =>
    (descScan (l.drop (i + 1)).length [] (l.drop (i + 1))).orElse
      (fun _ => sepDesc i l)

/-- A date token of the transaction pattern: exactly two digits, slash, two
digits, slash, two digits. -/
def date8 : List Char → Option (List Char × List Char)
  | a :: b :: '/' :: c :: d :: '/' :: e :: f :: rest =>
    if isDig a && isDig b && isDig c && isDig d && isDig e && isDig f then
      some ([a, b, '/', c, d, '/', e, f], rest)
    else none
  | _ => none

/-- The captured groups of transaction_pattern. -/
structure MatchRes where
  d1 : List Char
  d2 : List Char
  desc : List Char
  ref : Option (List Char)
  wdr : Option (List Char)
  dep : Option (List Char)
  bal : List Char
deriving DecidableEq, Repr

/-- transaction_pattern.match of src/app.py, anchored at the start of the
already stripped line.  The whitespace after each date is definitive because
the following token starts with a digit. -/
def transaction_pattern_match (l : List Char) : Option MatchRes :=
  match date8 l with
  | none => none
  | some (d1, r1) =>
    if runLen isWs r1 = 0 then none
    else
      match date8 (r1.drop (runLen isWs r1)) with
      | none => none
      | some (d2, r2) =>
        match sepDesc (runLen isWs r2) r2 with
        | some (dsc, rf, w, dp, b) => some ⟨d1, d2, dsc, rf, w, dp, b⟩
        | none => none

/-- Python float on the captured amount text after comma removal: an optional
digit run, a point and exactly two digits, read as an exact rational.  Every
string this is applied to in the program has that shape, so the default
branch returning zero is never reached on reachable inputs. -/
def pyFloat2 (l : List Char) : ℚ :=
  let ip := l.takeWhile isDig
  match l.dropWhile isDig with
  | ['.', a, b] =>
    if isDig a && isDig b then
      mkRat (Int.ofNat (natOfDigits ip * 100 + 10 * digitVal a + digitVal b)) 100
    else 0
  | _ => 0

/-- Python str.replace removing every comma. -/
def commaFree (l : List Char) : List Char := l.filter (fun c => c ≠ ',')

/-- The value conversion of an optional amount group: default the absent
group to 0.00, strip, remove commas, convert. -/
def amtVal (o : Option (List Char)) : ℚ :=
  pyFloat2 (commaFree (pyStrip (o.getD ['0', '.', '0', '0'])))

/-- The transaction record built from the matched groups (lines 122-130 of
src/app.py).  No step of this block can raise: the dates fall back to the
raw token, the amount groups always have the convertible shape. -/
def buildTx (m : MatchRes) : Transaction :=
  { date := String.mk (convert_date_format m.d1)
    post_date := String.mk (convert_date_format m.d2)
    description := String.mk (pyStrip m.desc)
    reference := m.ref.map (fun r => String.mk (pyStrip r))
    withdrawal := amtVal m.wdr
    deposit := amtVal m.dep
    balance := amtVal (some m.bal) }

/-- The skip test of the transaction loop: marker substrings checked before
the pattern, plus the blank-line test. -/
def shouldSkip (line : List Char) : Bool :=
  containsSub "Trans Date".data line || containsSub "Post Date".data line ||
  containsSub "Report taken on".data line || containsSub "B/F".data line ||
  containsSub "Page".data line || (pyStrip line).isEmpty

/-- One iteration of the transaction loop: skip test first, then the
anchored pattern match on the stripped line, then record construction. -/
def lineTx (line : List Char) : Option Transaction :=
  if shouldSkip line then none
  else (transaction_pattern_match (pyStrip line)).map buildTx

/-- The transaction loop with its append accumulator, as in the source. -/
def txLoop : List (List Char) → List Transaction → List Transaction
  | [], acc => acc
  | l :: ls, acc =>
    match lineTx l with
    | some t => txLoop ls (acc ++ [t])
    | none => txLoop ls acc

/-- The characters before the first newline, if any newline exists; this is
the lazy dot group of a label pattern ending in a newline, which matches
exactly up to the first newline at or after its start. -/
def firstBeforeNl : List Char → Option (List Char)
  | [] => none
  | c :: t => if c = '\n' then some [] else (firstBeforeNl t).map (c :: ·)

/-- Greedy one-or-more-whitespace then lazy-dot-to-newline, whitespace split
counted down from the run length. -/
def lazyDotNl : ℕ → List Char → Option (List Char)
  | 0, _ => none
  | i + 1, l =>
    match firstBeforeNl (l.drop (i + 1)) with
    | some g => some g
    | none => lazyDotNl i l

/-- Try a label pattern (label, whitespace, lazy dot group, newline) at one
position. -/
def labelNlAt (lab l : List Char) : Option (List Char) :=
  if lab.isPrefixOf l then
    lazyDotNl (runLen isWs (l.drop lab.length)) (l.drop lab.length)
  else none

/-- re.search: try the position-anchored matcher at every start position
from the left, including the final empty suffix. -/
def reSearch (f : List Char → Option β) : List Char → Option β
  | [] => f []
  | c :: t => (f (c :: t)).orElse (fun _ => reSearch f t)

/-- Try the account-number pattern (literal label, whitespace, digit run) at
one position; the digit group is greedy with nothing after it, so it
captures the maximal run. -/
def accountNoAt (l : List Char) : Option (List Char) :=
  if "Account No".data.isPrefixOf l then
    let rest := l.drop "Account No".data.length
    let w := runLen isWs rest
    if w = 0 then none
    else
      let r2 := rest.drop w
      let r := runLen isDig r2
      if r = 0 then none else some (r2.take r)
  else none

/-- A period date token: exactly two digits, slash, two digits, slash, four
digits. -/
def date10 : List Char → Option (List Char × List Char)
  | a :: b :: '/' :: c :: d :: '/' :: e :: f :: g :: h :: rest =>
    if isDig a && isDig b && isDig c && isDig d && isDig e && isDig f &&
        isDig g && isDig h then
      some ([a, b, '/', c, d, '/', e, f, g, h], rest)
    else none
  | _ => none

/-- Try the statement-period pattern at one position: the anchor literal,
then whitespace, a ten-character date, whitespace, the literal to,
whitespace, a second date.  Each whitespace run is definitive because the
next token starts with a non-whitespace character. -/
def periodAt (l : List Char) : Option (List Char × List Char) :=
  if "Account Statement for the period of".data.isPrefixOf l then
    let r0 := l.drop "Account Statement for the period of".data.length
    let w1 := runLen isWs r0
    if w1 = 0 then none
    else
      match date10 (r0.drop w1) with
      | none => none
      | some (g1, r1) =>
        let w2 := runLen isWs r1
        if w2 = 0 then none
        else
          let r2 := r1.drop w2
          if "to".data.isPrefixOf r2 then
            let r3 := r2.drop 2
            let w3 := runLen isWs r3
            if w3 = 0 then none
            else
              match date10 (r3.drop w3) with
              | none => none
              | some (g2, _) => some (g1, g2)
          else none
  else none

/-- A totals amount token, the maximal run of digits and commas (shortening
the run cannot help since the point must follow, and every earlier cut
leaves a digit or comma where the point is required), then a point and two
digits.  Returns the consumed length. -/
def totNumTok (l : List Char) : Option ℕ :=
  let r := runLen isDigComma l
  if r = 0 then none
  else
    match l.drop r with
    | '.' :: a :: b :: _ => if isDig a && isDig b then some (r + 3) else none
    | _ => none

/-- The three amount groups after the TOTAL literal, separated by mandatory
whitespace runs (definitive since the groups start with a digit or comma,
never whitespace). -/
def totAfter (l : List Char) : Option (List Char × List Char × List Char) :=
  let w1 := runLen isWs l
  if w1 = 0 then none
  else
    let r1 := l.drop w1
    match totNumTok r1 with
    | none => none
    | some u1 =>
      let r2 := r1.drop u1
      let w2 := runLen isWs r2
      if w2 = 0 then none
      else
        let r3 := r2.drop w2
        match totNumTok r3 with
        | none => none
        | some u2 =>
          let r4 := r3.drop u2
          let w3 := runLen isWs r4
          if w3 = 0 then none
          else
            let r5 := r4.drop w3
            match totNumTok r5 with
            | none => none
            | some u3 => some (r1.take u1, r3.take u2, r5.take u3)

/-- From a line start, skip the separator prefix of whitespace and commas
(the two leading starred groups of the totals pattern accept exactly such
mixes) and try the TOTAL literal; at most one TOTAL is reachable from a
given start since the literal itself contains no separator characters. -/
def totScan (fuel : ℕ) (l : List Char) : Option (List Char × List Char × List Char) :=
  match fuel with
  | 0 => none
  | f + 1 =>
    if "TOTAL".data.isPrefixOf l then totAfter (l.drop 5)
    else
      match l with
      | [] => none
      | c :: t => if isWs c || c = ',' then totScan f t else none

/-- The suffix just after the first newline, if any. -/
def dropPastNl : List Char → Option (List Char)
  | [] => none
  | c :: t => if c = '\n' then some t else dropPastNl t

/-- The multiline-anchored totals search: the caret tries the start of the
text and the position after each newline, left to right. -/
def totSearch (fuel : ℕ) (l : List Char) : Option (List Char × List Char × List Char) :=
  match fuel with
  | 0 => none
  | f + 1 =>
    (totScan (l.length + 1) l).orElse
      (fun _ =>
        match dropPastNl l with
        | some t => totSearch f t
        | none => none)

/-- The totals extraction of src/app.py lines 138-151.  Every captured group
has the convertible two-decimal shape, so the conversions cannot fail and
the three fields are set together or stay null together. -/
def totalsOf (text : List Char) : Totals :=
  match totSearch (text.length + 1) text with
  | some (a, b, c) =>
    { total_withdrawal := some (pyFloat2 (commaFree a))
      total_deposit := some (pyFloat2 (commaFree b))
      final_balance := some (pyFloat2 (commaFree c)) }
  | none => { total_withdrawal := none, total_deposit := none, final_balance := none }

/-- The account-information extraction of src/app.py lines 47-71.  No step
of the guarded block can raise, so every key is always assigned. -/
def account_info_of (text : List Char) : AccountInfo :=
  { bank := "Islami Bank Bangladesh PLC."
    account_holder := (reSearch (labelNlAt "Name".data) text).map
      (fun g => String.mk (pyStrip g))
    account_number := (reSearch accountNoAt text).map String.mk
    account_type := (reSearch (labelNlAt "Account Type".data) text).map
      (fun g => String.mk (pyStrip g))
    statement_period :=
      match reSearch periodAt text with
      | some (a, b) =>
        { start_date := some (String.mk (convert_date_format (pyStrip a)))
          end_date := some (String.mk (convert_date_format (pyStrip b))) }
      | none => { start_date := none, end_date := none } }

/-- parse_bank_statement of src/app.py on the already extracted text: the
header extraction, the transaction loop over the split lines, and the
totals search, composed into the fixed result shape. -/
def parse_bank_statement (text : List Char) : ParseResult :=
  { account_info := account_info_of text
    transactions := txLoop (splitNl text) []
    totals := totalsOf text }

end IBBL

namespace IBBL

/-- A real calendar day: positive year, month 1..12, day within the month. -/
def validDate (y m d : ℕ) : Prop :=
  1 ≤ y ∧ 1 ≤ m ∧ m ≤ 12 ∧ 1 ≤ d ∧ d ≤ daysInMonth y m

/-- The reference invariant: an absent group, or a nonempty capture made of
decimal digits only. -/
def refOk (o : Option (List Char)) : Prop :=
  ∀ cs, o = some cs → cs ≠ [] ∧ cs.all isDig = true

/-- The transaction produced by the program for a line whose description is
followed by a three-digit amount; used as a concrete evaluation point. -/
def refWitnessTx : Transaction :=
  { date := "2025-03-01", post_date := "2025-03-02", description := "X"
    reference := some "10", withdrawal := 0, deposit := 2, balance := 3 }

/-- The transaction produced by the program for a full three-amount line;
used as a concrete evaluation point. -/
def salaryTx : Transaction :=
  { date := "2025-03-01", post_date := "2025-03-02", description := "Salary"
    reference := none, withdrawal := 1000, deposit := 0, balance := 5000 }

end IBBL

namespace IBBL

/-- C1: the end-to-end scenario line with two trailing amounts.  The claim
says the parser produces exactly one record from it; in fact the pattern
requires a whitespace separator after each optional amount group even when
the group is absent, so a stripped line ending in only two amounts can never
match and the program produces no transaction at all. -/
theorem c1_two_amount_scenario_line_yields_no_transaction :
    (parse_bank_statement
      "01/03/25 02/03/25 Cash Deposit 1,000.00 5,000.00".data).transactions = [] := by
  decide

/-- C3: for every input text the totals result is all-or-nothing: the three
fields are null together or set together; no partially populated totals is
possible because the anchor match fixes all three captures at once and their
conversion cannot fail. -/
theorem c3_totals_all_or_nothing (text : List Char) :
    ((parse_bank_statement text).totals.total_withdrawal = none ∧
     (parse_bank_statement text).totals.total_deposit = none ∧
     (parse_bank_statement text).totals.final_balance = none) ∨
    (∃ a b c, (parse_bank_statement text).totals.total_withdrawal = some a ∧
      (parse_bank_statement text).totals.total_deposit = some b ∧
      (parse_bank_statement text).totals.final_balance = some c) := by
  have h : (parse_bank_statement text).totals = totalsOf text := rfl
  rw [h]
  unfold totalsOf
  cases totSearch (text.length + 1) text with
  | none => exact Or.inl ⟨rfl, rfl, rfl⟩
  | some p => exact Or.inr ⟨_, _, _, rfl, rfl, rfl⟩

/-- C4: for every input text the parse terminates (it is a total function of
this file) and returns the fixed shape: the constant bank name and every
key of account_info, transactions and totals present, with absence expressed
by the null option values, never by a missing key. -/
theorem c4_parse_returns_fixed_shape (text : List Char) :
    ∃ h n ty sd ed tx tw td fb,
      parse_bank_statement text =
        ⟨⟨"Islami Bank Bangladesh PLC.", h, n, ty, ⟨sd, ed⟩⟩, tx, ⟨tw, td, fb⟩⟩ :=
  ⟨_, _, _, _, _, _, _, _, _, rfl⟩

/-- C5: the empty input string yields the all-null result: only the constant
bank name is set, the transaction list is empty and the totals are null. -/
theorem c5_empty_input_all_null :
    parse_bank_statement [] =
      ⟨⟨"Islami Bank Bangladesh PLC.", none, none, none, ⟨none, none⟩⟩, [],
        ⟨none, none, none⟩⟩ := by
  decide

/-- C6: the header scenario text yields holder John Doe, number 123456, type
Savings and no transactions. -/
theorem c6_header_scenario :
    (parse_bank_statement
      "Name John Doe\nAccount No 123456\nAccount Type Savings\n".data).account_info.account_holder
        = some "John Doe" ∧
    (parse_bank_statement
      "Name John Doe\nAccount No 123456\nAccount Type Savings\n".data).account_info.account_number
        = some "123456" ∧
    (parse_bank_statement
      "Name John Doe\nAccount No 123456\nAccount Type Savings\n".data).account_info.account_type
        = some "Savings" ∧
    (parse_bank_statement
      "Name John Doe\nAccount No 123456\nAccount Type Savings\n".data).transactions = [] := by
  refine ⟨?_, ?_, ?_, ?_⟩ <;> decide

/-- C8: the totals scenario line yields exactly the three figures with the
thousands separators stripped, assigned in the order withdrawal, deposit,
balance. -/
theorem c8_totals_scenario :
    (parse_bank_statement "TOTAL 10,000.00 12,000.00 2,000.00".data).totals =
      ⟨some 10000, some 12000, some 2000⟩ := by
  decide

end IBBL

namespace IBBL

/-- A digit character has value at most nine. -/
theorem digitVal_le_nine {c : Char} (h : isDig c = true) : digitVal c ≤ 9 := by
  unfold isDig at h
  simp only [Bool.and_eq_true, decide_eq_true_eq] at h
  unfold digitVal
  omega

/-- The day token is in range 1..31. -/
theorem dayTok_bounds {l : List Char} {d : ℕ} {r : List Char}
    (h : dayTok l = some (d, r)) : 1 ≤ d ∧ d ≤ 31 := by
  unfold dayTok at h
  split at h
  · exact absurd h (by simp)
  · split at h
    · rename_i c hc
      simp only [Bool.and_eq_true, decide_eq_true_eq] at hc
      simp only [Option.some.injEq, Prod.mk.injEq] at h
      have := digitVal_le_nine hc.1
      omega
    · exact absurd h (by simp)
  · rename_i c1 c2 rr
    split at h
    · split at h
      · rename_i hv
        simp only [decide_eq_true_eq, Bool.and_eq_true] at hv
        simp only [Option.some.injEq, Prod.mk.injEq] at h
        omega
      · exact absurd h (by simp)
    · split at h
      · rename_i hc
        simp only [Bool.and_eq_true, decide_eq_true_eq] at hc
        simp only [Option.some.injEq, Prod.mk.injEq] at h
        have := digitVal_le_nine hc.1
        omega
      · exact absurd h (by simp)

/-- The month token is in range 1..12. -/
theorem monthTok_bounds {l : List Char} {m : ℕ} {r : List Char}
    (h : monthTok l = some (m, r)) : 1 ≤ m ∧ m ≤ 12 := by
  unfold monthTok at h
  split at h
  · exact absurd h (by simp)
  · split at h
    · rename_i c hc
      simp only [Bool.and_eq_true, decide_eq_true_eq] at hc
      simp only [Option.some.injEq, Prod.mk.injEq] at h
      have := digitVal_le_nine hc.1
      omega
    · exact absurd h (by simp)
  · rename_i c1 c2 rr
    split at h
    · split at h
      · rename_i hv
        simp only [decide_eq_true_eq, Bool.and_eq_true] at hv
        simp only [Option.some.injEq, Prod.mk.injEq] at h
        omega
      · exact absurd h (by simp)
    · split at h
      · rename_i hc
        simp only [Bool.and_eq_true, decide_eq_true_eq] at hc
        simp only [Option.some.injEq, Prod.mk.injEq] at h
        have := digitVal_le_nine hc.1
        omega
      · exact absurd h (by simp)

/-- A successful two-digit-year parse yields a real calendar day. -/
theorem strptime_dmy_valid {l : List Char} {y m d : ℕ}
    (h : strptime_dmy l = some (y, m, d)) : validDate y m d := by
  unfold strptime_dmy at h
  split at h
  · exact absurd h (by simp)
  · rename_i p dv r hday
    split at h
    · exact absurd h (by simp)
    · rename_i c r1
      split at h
      · split at h
        · exact absurd h (by simp)
        · rename_i m' r2 hmon
          split at h
          · exact absurd h (by simp)
          · rename_i c2 r3
            split at h
            · split at h
              · exact absurd h (by simp)
              · rename_i yy hy
                split at h
                · rename_i hle
                  simp only [Option.some.injEq, Prod.mk.injEq] at h
                  obtain ⟨hy1, hm1, hd1⟩ := h
                  subst hy1; subst hm1; subst hd1
                  have hdb := dayTok_bounds hday
                  have hmb := monthTok_bounds hmon
                  refine ⟨?_, hmb.1, hmb.2, hdb.1, hle⟩
                  unfold pivotY
                  split <;> omega
                · exact absurd h (by simp)
            · exact absurd h (by simp)
      · exact absurd h (by simp)

/-- A successful four-digit-year parse yields a real calendar day. -/
theorem strptime_dmY_valid {l : List Char} {y m d : ℕ}
    (h : strptime_dmY l = some (y, m, d)) : validDate y m d := by
  unfold strptime_dmY at h
  split at h
  · exact absurd h (by simp)
  · rename_i p dv r hday
    split at h
    · exact absurd h (by simp)
    · rename_i c r1
      split at h
      · split at h
        · exact absurd h (by simp)
        · rename_i m' r2 hmon
          split at h
          · exact absurd h (by simp)
          · rename_i c2 r3
            split at h
            · split at h
              · exact absurd h (by simp)
              · rename_i yv hy
                split at h
                · rename_i hle
                  simp only [Bool.and_eq_true, decide_eq_true_eq] at hle
                  simp only [Option.some.injEq, Prod.mk.injEq] at h
                  obtain ⟨hy1, hm1, hd1⟩ := h
                  subst hy1; subst hm1; subst hd1
                  have hdb := dayTok_bounds hday
                  have hmb := monthTok_bounds hmon
                  exact ⟨hle.1, hmb.1, hmb.2, hdb.1, hle.2⟩
                · exact absurd h (by simp)
            · exact absurd h (by simp)
      · exact absurd h (by simp)

/-- C2: the date normalizer tries the two-digit-year form first, reformats a
token accepted by either strptime form as the canonical year-month-day
rendering of the parsed (hence real) calendar day, returns every other token
unchanged, and is a total function, so no exception escapes. -/
theorem c2_convert_date_format_spec (s : List Char) :
    (strptime_dmy s = none → strptime_dmY s = none → convert_date_format s = s)
    ∧ (∀ y m d, strptime_dmy s = some (y, m, d) →
        convert_date_format s = isoChars y m d ∧ validDate y m d)
    ∧ (∀ y m d, strptime_dmy s = none → strptime_dmY s = some (y, m, d) →
        convert_date_format s = isoChars y m d ∧ validDate y m d) := by
  refine ⟨?_, ?_, ?_⟩
  · intro h1 h2
    unfold convert_date_format
    rw [h1, h2]
  · intro y m d h
    refine ⟨?_, strptime_dmy_valid h⟩
    unfold convert_date_format
    rw [h]
  · intro y m d h1 h2
    refine ⟨?_, strptime_dmY_valid h2⟩
    unfold convert_date_format
    rw [h1, h2]

/-- Witness for C2 at concrete tokens: a parsed two-digit-year token, a
parsed four-digit-year token after the first form fails, and an unchanged
malformed token. -/
theorem c2_witness :
    convert_date_format "01/03/25".data = "2025-03-01".data ∧
    convert_date_format "29/02/2024".data = "2024-02-29".data ∧
    convert_date_format "31/02/25".data = "31/02/25".data :=
  ⟨((c2_convert_date_format_spec "01/03/25".data).2.1 2025 3 1 (by decide)).1,
   ((c2_convert_date_format_spec "29/02/2024".data).2.2 2024 2 29 (by decide) (by decide)).1,
   (c2_convert_date_format_spec "31/02/25".data).1 (by decide) (by decide)⟩

end IBBL

namespace IBBL

/-- The append-accumulator loop equals filterMap, which yields the ordering
guarantee: each record comes from one line and the records keep line order. -/
theorem txLoop_eq (ls : List (List Char)) (acc : List Transaction) :
    txLoop ls acc = acc ++ ls.filterMap lineTx := by
  induction ls generalizing acc with
  | nil => simp [txLoop]
  | cons l t ih =>
    unfold txLoop
    cases h : lineTx l with
    | some tx => simp [List.filterMap_cons, h, ih]
    | none => simp [List.filterMap_cons, h, ih]

/-- A line satisfying the skip condition yields no record, before the
pattern is ever consulted. -/
theorem lineTx_of_skip {line : List Char} (h : shouldSkip line = true) :
    lineTx line = none := by
  simp [lineTx, h]

/-- At most one record per retained line. -/
theorem filterMap_lineTx_le (ls : List (List Char)) :
    (ls.filterMap lineTx).length ≤ (ls.filter (fun l => !shouldSkip l)).length := by
  induction ls with
  | nil => simp
  | cons l t ih =>
    by_cases hs : shouldSkip l
    · rw [List.filterMap_cons, lineTx_of_skip hs]
      simpa [List.filter_cons, hs] using ih
    · rw [List.filterMap_cons, List.filter_cons]
      cases h : lineTx l with
      | none => simp only [hs, Bool.not_false, if_pos]; simp; omega
      | some tx => simp only [hs, Bool.not_false, if_pos]; simp; omega

/-- The amount conversion always yields a nonnegative rational. -/
theorem pyFloat2_nonneg (l : List Char) : 0 ≤ pyFloat2 l := by
  unfold pyFloat2
  split
  · split
    · exact Rat.mkRat_nonneg (Int.ofNat_nonneg _) _
    · norm_num
  · norm_num

/-- The optional-group amount conversion is nonnegative. -/
theorem amtVal_nonneg (o : Option (List Char)) : 0 ≤ amtVal o :=
  pyFloat2_nonneg _

/-- Inversion of one loop iteration: a produced record comes from a pattern
match on the stripped line. -/
theorem lineTx_some {line : List Char} {t : Transaction} (h : lineTx line = some t) :
    ∃ m, transaction_pattern_match (pyStrip line) = some m ∧ t = buildTx m := by
  unfold lineTx at h
  split at h
  · exact absurd h (by simp)
  · cases hm : transaction_pattern_match (pyStrip line) with
    | none => rw [hm] at h; exact absurd h (by simp)
    | some m =>
      rw [hm] at h
      simp only [Option.map_some', Option.some.injEq] at h
      exact ⟨m, rfl, h.symm⟩

/-- C7: the transaction list is the in-order filterMap of the split lines
(each record from one line, record order equal to line order), its length is
at most the number of retained lines, and every record has nonnegative
withdrawal and deposit. -/
theorem c7_transaction_list_properties (text : List Char) :
    (parse_bank_statement text).transactions = (splitNl text).filterMap lineTx ∧
    (parse_bank_statement text).transactions.length ≤
      ((splitNl text).filter (fun l => !shouldSkip l)).length ∧
    ∀ t ∈ (parse_bank_statement text).transactions, 0 ≤ t.withdrawal ∧ 0 ≤ t.deposit := by
  have he : (parse_bank_statement text).transactions = (splitNl text).filterMap lineTx := by
    show txLoop (splitNl text) [] = _
    rw [txLoop_eq]
    rfl
  refine ⟨he, ?_, ?_⟩
  · rw [he]; exact filterMap_lineTx_le _
  · intro t ht
    rw [he] at ht
    obtain ⟨line, _, hsome⟩ := List.mem_filterMap.mp ht
    obtain ⟨m, _, rfl⟩ := lineTx_some hsome
    exact ⟨amtVal_nonneg _, amtVal_nonneg _⟩

/-- Witness for C7 at a full three-amount line producing one record. -/
theorem c7_witness : 0 ≤ salaryTx.withdrawal ∧ 0 ≤ salaryTx.deposit :=
  (c7_transaction_list_properties
    "01/03/25 02/03/25 Salary 1,000.00 0.00 5,000.00".data).2.2 salaryTx (by decide)

/-- C9: a line that is blank after stripping or contains one of the five
fixed marker substrings produces no transaction record, the substring test
being applied before the pattern is attempted. -/
theorem c9_skip_condition_blocks_line (line : List Char)
    (h : pyStrip line = [] ∨ containsSub "Trans Date".data line = true ∨
      containsSub "Post Date".data line = true ∨
      containsSub "Report taken on".data line = true ∨
      containsSub "B/F".data line = true ∨ containsSub "Page".data line = true) :
    lineTx line = none := by
  have hs : shouldSkip line = true := by
    unfold shouldSkip
    rcases h with h | h | h | h | h | h <;> simp [h]
  simp [lineTx, hs]

/-- Witness for C9 at the header-repeat scenario line, which also yields an
empty transaction list for the whole text. -/
theorem c9_witness :
    lineTx "Trans Date Post Date Particulars".data = none ∧
    (parse_bank_statement "Trans Date Post Date Particulars".data).transactions = [] :=
  ⟨c9_skip_condition_blocks_line _ (Or.inr (Or.inl (by decide))), by decide⟩

end IBBL

namespace IBBL

/-- Inversion of the option-orElse used by the ordered alternation. -/
theorem orElse_eq_some {α : Type} {o : Option α} {f : Unit → Option α} {x : α}
    (h : o.orElse f = some x) : o = some x ∨ f () = some x := by
  cases o with
  | none => right; simpa [Option.orElse] using h
  | some v => left; simpa [Option.orElse] using h

/-- A run is never longer than the list. -/
theorem runLen_le_length (p : Char → Bool) (l : List Char) :
    runLen p l ≤ l.length := by
  induction l with
  | nil => simp [runLen]
  | cons c t ih =>
    unfold runLen
    split
    · simpa using ih
    · simp

/-- Every prefix of the run satisfies the predicate. -/
theorem all_take_of_le_runLen {p : Char → Bool} {l : List Char} {k : ℕ}
    (h : k ≤ runLen p l) : (l.take k).all p = true := by
  induction l generalizing k with
  | nil => simp
  | cons c t ih =>
    unfold runLen at h
    split at h
    · rename_i hp
      cases k with
      | zero => simp
      | succ k' => simpa [List.all_cons, hp] using ih (by omega)
    · have hk : k = 0 := by omega
      subst hk
      simp

/-- A positive prefix of a list is nonempty. -/
theorem take_ne_nil {l : List Char} {k : ℕ} (hk : k ≠ 0) (hl : k ≤ l.length) :
    l.take k ≠ [] := by
  cases l with
  | nil => simp at hl; omega
  | cons c t =>
    cases k with
    | zero => omega
    | succ k' => simp

/-- A positive run begins with a satisfying character. -/
theorem runLen_pos_head {p : Char → Bool} {l : List Char} (h : 1 ≤ runLen p l) :
    ∃ c t, l = c :: t ∧ p c = true := by
  cases l with
  | nil => simp [runLen] at h
  | cons c t =>
    unfold runLen at h
    split at h
    · exact ⟨c, t, rfl, by assumption⟩
    · omega

/-- A digit character is not regex whitespace. -/
theorem isDig_not_isWs {c : Char} (h : isDig c = true) : isWs c = false := by
  have h' : 48 ≤ c.toNat ∧ c.toNat ≤ 57 := by simpa [isDig] using h
  rw [Bool.eq_false_iff]
  intro hw
  simp only [isWs, Bool.or_eq_true, Bool.and_eq_true, decide_eq_true_eq] at hw
  omega

/-- A whitespace character is not in the reference class. -/
theorem isWs_not_isAZ9 {c : Char} (h : isWs c = true) : isAZ9 c = false := by
  simp only [isWs, Bool.or_eq_true, Bool.and_eq_true, decide_eq_true_eq] at h
  rw [Bool.eq_false_iff]
  intro ha
  simp only [isAZ9, isDig, Bool.or_eq_true, Bool.and_eq_true, decide_eq_true_eq] at ha
  omega

/-- A digit is in the reference class. -/
theorem isDig_isAZ9 {c : Char} (h : isDig c = true) : isAZ9 c = true := by
  simp [isAZ9, h]

/-- The run of the head and tail. -/
theorem runLen_cons (p : Char → Bool) (c : Char) (t : List Char) :
    runLen p (c :: t) = if p c then runLen p t + 1 else 0 := rfl

/-- When the character just after the digit run is outside the reference
class, the reference-class run is no longer than the digit run. -/
theorem runLen_az_le_dig {l : List Char}
    (h : ∃ c r, l.drop (runLen isDig l) = c :: r ∧ isAZ9 c = false) :
    runLen isAZ9 l ≤ runLen isDig l := by
  induction l with
  | nil => simp [runLen]
  | cons c t ih =>
    obtain ⟨c', r, hd, hc'⟩ := h
    by_cases hdig : isDig c = true
    · have haz : isAZ9 c = true := isDig_isAZ9 hdig
      have hd' : t.drop (runLen isDig t) = c' :: r := by
        rw [runLen_cons isDig c t, if_pos hdig, List.drop_succ_cons] at hd
        exact hd
      rw [runLen_cons isAZ9 c t, runLen_cons isDig c t, if_pos haz, if_pos hdig]
      exact Nat.succ_le_succ (ih ⟨c', r, hd', hc'⟩)
    · have h1 : runLen isDig (c :: t) = 0 := by
        rw [runLen_cons, if_neg hdig]
      rw [h1, List.drop_zero] at hd
      have hcc : c = c' := (List.cons.injEq _ _ _ _ ▸ hd).1
      have haz : isAZ9 c = false := by rw [hcc]; exact hc'
      rw [h1, runLen_cons, if_neg (by simp [haz])]

/-- A list passing the point test starts with a point. -/
theorem amtDot2_shape {l : List Char} (h : amtDot2 l = true) :
    ∃ r, l = '.' :: r := by
  match l with
  | [] => exact Bool.noConfusion h
  | [c] => exact Bool.noConfusion h
  | [c, a] => exact Bool.noConfusion h
  | c :: a :: b :: t =>
    have h' : (c = '.' && isDig a && isDig b) = true := h
    simp only [Bool.and_eq_true, decide_eq_true_eq] at h'
    exact ⟨a :: b :: t, by rw [h'.1.1]⟩

/-- A list passing the comma test starts with a comma. -/
theorem amtComma3_shape {l : List Char} (h : amtComma3 l = true) :
    ∃ r, l = ',' :: r := by
  match l with
  | [] => exact Bool.noConfusion h
  | [c] => exact Bool.noConfusion h
  | [c, a] => exact Bool.noConfusion h
  | [c, a, b] => exact Bool.noConfusion h
  | c :: a :: b :: c3 :: t =>
    have h' : (c = ',' && isDig a && isDig b && isDig c3) = true := h
    simp only [Bool.and_eq_true, decide_eq_true_eq] at h'
    exact ⟨a :: b :: c3 :: t, by rw [h'.1.1.1]⟩

/-- The amount tail only matches a list beginning with a point or a comma,
neither of which is in the reference class. -/
theorem amtGroups_head {f : ℕ} {m : List Char} {v : ℕ}
    (h : amtGroups f m = some v) : ∃ c r, m = c :: r ∧ isAZ9 c = false := by
  cases f with
  | zero => exact Option.noConfusion h
  | succ f =>
    unfold amtGroups at h
    split at h
    · rename_i hd
      obtain ⟨r, rfl⟩ := amtDot2_shape hd
      exact ⟨'.', r, rfl, by decide⟩
    · split at h
      · rename_i hc
        obtain ⟨r, rfl⟩ := amtComma3_shape hc
        exact ⟨',', r, rfl, by decide⟩
      · exact Option.noConfusion h

/-- A successful amount match forces the reference-class run to lie inside
the digit run. -/
theorem amt_az_le {l : List Char} {u : ℕ} (h : amt l = some u) :
    runLen isAZ9 l ≤ runLen isDig l := by
  unfold amt at h
  split at h
  · exact absurd h (by simp)
  · have hg : ∃ v, amtGroups l.length (l.drop (runLen isDig l)) = some v := by
      cases hg : amtGroups l.length (l.drop (runLen isDig l)) with
      | none => rw [hg] at h; exact absurd h (by simp)
      | some v => exact ⟨v, rfl⟩
    obtain ⟨v, hv⟩ := hg
    exact runLen_az_le_dig (amtGroups_head hv)

/-- The literal zero amount also forces the reference-class run inside the
digit run. -/
theorem lit000_az_le {l : List Char} (h : lit000 l = true) :
    runLen isAZ9 l ≤ runLen isDig l := by
  cases l with
  | nil => simp [lit000] at h
  | cons a t1 =>
    cases t1 with
    | nil => simp [lit000] at h
    | cons b t2 =>
      cases t2 with
      | nil => simp [lit000] at h
      | cons c t3 =>
        cases t3 with
        | nil => simp [lit000] at h
        | cons d t4 =>
          simp only [lit000, Bool.and_eq_true, decide_eq_true_eq] at h
          obtain ⟨⟨⟨ha, hb⟩, hc⟩, hd⟩ := h
          subst ha; subst hb
          have e1 : runLen isAZ9 ('0' :: '.' :: c :: d :: t4) = 1 := by
            rw [runLen_cons, if_pos (by decide), runLen_cons, if_neg (by decide)]
          have e2 : runLen isDig ('0' :: '.' :: c :: d :: t4) = 1 := by
            rw [runLen_cons, if_pos (by decide), runLen_cons, if_neg (by decide)]
          omega

/-- After a successful lookahead, either the reference-class run is empty
(the whitespace alternative) or it lies inside the digit run of an amount. -/
theorem lookAt_az {l : List Char} (h : lookAt l = true) :
    runLen isAZ9 l = 0 ∨ runLen isAZ9 l ≤ runLen isDig l := by
  unfold lookAt at h
  simp only [Bool.or_eq_true, Bool.and_eq_true, decide_eq_true_eq,
    Option.isSome_iff_exists] at h
  rcases h with (⟨u, hu⟩ | h3) | ⟨hw, u, hu⟩
  · exact Or.inr (amt_az_le hu)
  · exact Or.inr (lit000_az_le h3)
  · obtain ⟨c, t, rfl, hc⟩ := runLen_pos_head hw
    left
    unfold runLen
    rw [if_neg (by simp [isWs_not_isAZ9 hc])]

/-- The reference group of any successful reference-level search is absent
or a nonempty prefix of the input of length at most the counter. -/
theorem refLevel_inv {j : ℕ} {l : List Char} {rf w d : Option (List Char)}
    {b : List Char} (h : refLevel j l = some (rf, w, d, b)) :
    rf = none ∨ ∃ k, 1 ≤ k ∧ k ≤ j ∧ rf = some (l.take k) := by
  induction j with
  | zero =>
    unfold refLevel at h
    cases hs : starWdr (runLen isWs l) l with
    | none => rw [hs] at h; exact absurd h (by simp)
    | some p =>
      rw [hs] at h
      simp only [Option.map_some', Option.some.injEq, Prod.mk.injEq] at h
      exact Or.inl h.1.symm
  | succ j ih =>
    unfold refLevel at h
    cases hs : starWdr (runLen isWs (l.drop (j + 1))) (l.drop (j + 1)) with
    | some p =>
      rw [hs] at h
      simp only [Option.some.injEq, Prod.mk.injEq] at h
      exact Or.inr ⟨j + 1, by omega, le_refl _, h.1.symm⟩
    | none =>
      rw [hs] at h
      rcases ih h with h' | ⟨k, h1, h2, h3⟩
      · exact Or.inl h'
      · exact Or.inr ⟨k, h1, by omega, h3⟩

/-- The numeric tail never captures anything but digits as the reference. -/
theorem tailFull_refOk {l : List Char} {rf w d : Option (List Char)}
    {b : List Char} (h : tailFull l = some (rf, w, d, b)) : refOk rf := by
  unfold tailFull at h
  split at h
  · rename_i hla
    rcases refLevel_inv h with hnone | ⟨k, hk1, hk2, hk3⟩
    · intro cs hcs
      rw [hnone] at hcs
      exact absurd hcs (by simp)
    · intro cs hcs
      rw [hk3] at hcs
      have hcs' : cs = l.take k := by simpa using hcs.symm
      subst hcs'
      rcases lookAt_az hla with h0 | hle
      · omega
      · have hk' : k ≤ runLen isDig l := le_trans hk2 hle
        refine ⟨?_, all_take_of_le_runLen hk'⟩
        exact take_ne_nil (by omega) (le_trans hk' (runLen_le_length _ _))
  · exact absurd h (by simp)

/-- The whitespace search before the tail preserves the invariant. -/
theorem sepTail_refOk {i : ℕ} {l : List Char} {rf w d : Option (List Char)}
    {b : List Char} (h : sepTail i l = some (rf, w, d, b)) : refOk rf := by
  induction i with
  | zero => simp [sepTail] at h
  | succ i ih =>
    unfold sepTail at h
    rcases orElse_eq_some h with h' | h'
    · exact tailFull_refOk h'
    · exact ih h'

/-- The lazy description search preserves the invariant. -/
theorem descScan_refOk {fuel : ℕ} {acc rest dsc : List Char}
    {rf w d : Option (List Char)} {b : List Char}
    (h : descScan fuel acc rest = some (dsc, rf, w, d, b)) : refOk rf := by
  induction fuel generalizing acc rest with
  | zero =>
    have h0 : (sepTail (runLen isWs rest) rest).map (fun tr => (acc, tr)) =
        some (dsc, rf, w, d, b) := h
    cases hs : sepTail (runLen isWs rest) rest with
    | some tr =>
      rw [hs] at h0
      have h' : (acc, tr) = (dsc, rf, w, d, b) := Option.some.inj h0
      have h2 : tr = (rf, w, d, b) := congrArg Prod.snd h'
      subst h2
      exact sepTail_refOk hs
    | none =>
      rw [hs] at h0
      exact Option.noConfusion h0
  | succ f ih =>
    cases rest with
    | nil => exact Option.noConfusion h
    | cons c t =>
      have h0 : ((sepTail (runLen isWs (c :: t)) (c :: t)).map
          (fun tr => (acc, tr))).orElse
          (fun _ => descScan f (acc ++ [c]) t) = some (dsc, rf, w, d, b) := h
      rcases orElse_eq_some h0 with h' | h'
      · cases hs : sepTail (runLen isWs (c :: t)) (c :: t) with
        | none => rw [hs] at h'; exact Option.noConfusion h'
        | some tr =>
          rw [hs] at h'
          have he : (acc, tr) = (dsc, rf, w, d, b) := Option.some.inj h'
          have h2 : tr = (rf, w, d, b) := congrArg Prod.snd he
          subst h2
          exact sepTail_refOk hs
      · exact ih h'

/-- The whitespace search before the description preserves the invariant. -/
theorem sepDesc_refOk {i : ℕ} {l dsc : List Char} {rf w d : Option (List Char)}
    {b : List Char} (h : sepDesc i l = some (dsc, rf, w, d, b)) : refOk rf := by
  induction i with
  | zero => simp [sepDesc] at h
  | succ i ih =>
    unfold sepDesc at h
    rcases orElse_eq_some h with h' | h'
    · exact descScan_refOk h'
    · exact ih h'

/-- The full pattern match never captures anything but digits as the
reference group. -/
theorem transaction_pattern_match_refOk {l : List Char} {m : MatchRes}
    (h : transaction_pattern_match l = some m) : refOk m.ref := by
  unfold transaction_pattern_match at h
  split at h
  · exact absurd h (by simp)
  · split at h
    · exact absurd h (by simp)
    · split at h
      · exact absurd h (by simp)
      · rename_i d2 r2 heq2
        cases hs : sepDesc (runLen isWs r2) r2 with
        | none => rw [hs] at h; exact absurd h (by simp)
        | some q =>
          obtain ⟨dsc, rf, w, dp, b⟩ := q
          rw [hs] at h
          simp only [Option.some.injEq] at h
          have : m.ref = rf := by rw [← h]
          rw [this]
          exact sepDesc_refOk hs

/-- Dropping leading whitespace is the identity on an all-digit list. -/
theorem dropWhile_isWs_of_all_dig {l : List Char} (h : l.all isDig = true) :
    l.dropWhile isWs = l := by
  cases l with
  | nil => rfl
  | cons c t =>
    simp only [List.all_cons, Bool.and_eq_true] at h
    rw [List.dropWhile_cons, isDig_not_isWs h.1]
    simp

/-- Stripping is the identity on an all-digit capture. -/
theorem pyStrip_all_dig {l : List Char} (h : l.all isDig = true) :
    pyStrip l = l := by
  unfold pyStrip
  rw [dropWhile_isWs_of_all_dig h]
  rw [dropWhile_isWs_of_all_dig (by simpa using h)]
  exact List.reverse_reverse l

/-- C10: every produced transaction has a reference that is either null or a
nonempty string of decimal digits; a token containing an uppercase letter is
never captured as the reference, because the lookahead forces the optional
reference group to start inside a numeric amount. -/
theorem c10_reference_null_or_digits (text : List Char) (t : Transaction)
    (ht : t ∈ (parse_bank_statement text).transactions) :
    t.reference = none ∨
      ∃ r : String, t.reference = some r ∧ r.data ≠ [] ∧ r.data.all isDig = true := by
  have he : (parse_bank_statement text).transactions = (splitNl text).filterMap lineTx := by
    show txLoop (splitNl text) [] = _
    rw [txLoop_eq]
    rfl
  rw [he] at ht
  obtain ⟨line, _, hsome⟩ := List.mem_filterMap.mp ht
  obtain ⟨m, hm, rfl⟩ := lineTx_some hsome
  have hro := transaction_pattern_match_refOk hm
  cases hr : m.ref with
  | none =>
    left
    show (buildTx m).reference = none
    simp [buildTx, hr]
  | some cs =>
    right
    obtain ⟨hne, hall⟩ := hro cs hr
    refine ⟨String.mk cs, ?_, by simpa using hne, by simpa using hall⟩
    show (buildTx m).reference = some (String.mk cs)
    simp [buildTx, hr, pyStrip_all_dig hall]

/-- Witness for C10 at a line whose first amount is split by the greedy
reference group, producing the digit reference 10. -/
theorem c10_witness :
    refWitnessTx.reference = none ∨
      ∃ r : String, refWitnessTx.reference = some r ∧ r.data ≠ [] ∧
        r.data.all isDig = true :=
  c10_reference_null_or_digits
    "01/03/25 02/03/25 X 100.00 2.00 3.00 4.00".data refWitnessTx (by decide)

end IBBL
